import Mathlib

set_option maxRecDepth 1000000
set_option maxHeartbeats 1000000

/-!
Verification of the tgju.org currency-price crawler (`src/main.py`).

The development embeds the program shallowly:

* `JDate`, `isleap`, `daysInMonth`, `nextDay`, `toOrd` model the solar Hijri
  (Jalali) calendar arithmetic provided by the `jdatetime` dependency —
  dates compare chronologically and `timedelta(days=1)` is `nextDay`;
* `formatDate` / `parseDate` model `strftime('%Y-%m-%d')` and
  `strptime(_, '%Y-%m-%d')` on the normalized form the program writes;
* `CrawlerState`, `save_resume_data`, `load_resume_data`, `load_data`,
  `iterAt`, `fetchLoop`, `start` embed the class
  `TgjuCurrencyPriceCrawler`, with file and network effects recorded in an
  explicit event trace; the remote endpoint is an oracle
  `JDate → ApiResponse`;
* `retryRun` models the bounded-retry policy configured on the
  `requests.Session` in `__init__` (the executor itself lives in the
  `urllib3` dependency, so it is modelled from the spec; the status list,
  attempt count and backoff formula are taken from the source).
-/

namespace TgjuCrawler

/-- A date of the solar Hijri (Jalali) calendar, the calendar used by
`jdatetime` for every date in `main.py`. -/
structure JDate where
  year : Nat
  month : Nat
  day : Nat
deriving DecidableEq

/-- Jalali leap-year rule of the `jdatetime` dependency: a year is leap when
`year % 33` is one of 1, 5, 9, 13, 17, 22, 26, 30. -/
def isleap (y : Nat) : Bool :=
  y % 33 == 1 || y % 33 == 5 || y % 33 == 9 || y % 33 == 13 ||
  y % 33 == 17 || y % 33 == 22 || y % 33 == 26 || y % 33 == 30

/-- Length of a Jalali month: months 1–6 have 31 days, months 7–11 have 30,
month 12 has 29 (30 in a leap year). -/
def daysInMonth (y m : Nat) : Nat :=
  if m ≤ 6 then 31 else if m ≤ 11 then 30 else if isleap y then 30 else 29

/-- A well-formed Jalali date, the invariant `jdatetime.strptime` enforces. -/
def ValidDate (d : JDate) : Prop :=
  1 ≤ d.month ∧ d.month ≤ 12 ∧ 1 ≤ d.day ∧ d.day ≤ daysInMonth d.year d.month

instance (d : JDate) : Decidable (ValidDate d) := by
  unfold ValidDate; infer_instance

/-- Days of the year strictly before month `m` of year `y`. -/
def daysBeforeMonth (y : Nat) : Nat → Nat
  | 0 => 0
  | m + 1 => if m = 0 then 0 else daysBeforeMonth y m + daysInMonth y m

/-- Number of leap years strictly below `y`. -/
def leapsBefore (y : Nat) : Nat :=
  (List.range y).countP (fun x => isleap x)

/-- Ordinal day number of a Jalali date; chronological comparison of
`jdatetime` datetimes is comparison of these ordinals. -/
def toOrd (d : JDate) : Nat :=
  365 * d.year + leapsBefore d.year + daysBeforeMonth d.year d.month + d.day

/-- The calendar successor of a date, i.e. `date + timedelta(days=1)`
as computed through `jdatetime`. -/
def nextDay (d : JDate) : JDate :=
  if d.day < daysInMonth d.year d.month then ⟨d.year, d.month, d.day + 1⟩
  else if d.month < 12 then ⟨d.year, d.month + 1, 1⟩
  else ⟨d.year + 1, 1, 1⟩

lemma daysInMonth_pos (y m : Nat) : 0 < daysInMonth y m := by
  unfold daysInMonth
  split
  · omega
  · split
    · omega
    · split <;> omega

lemma daysInMonth_le (y m : Nat) : daysInMonth y m ≤ 31 := by
  unfold daysInMonth
  split
  · omega
  · split
    · omega
    · split <;> omega

lemma leapsBefore_succ (y : Nat) :
    leapsBefore (y + 1) = leapsBefore y + (if isleap y then 1 else 0) := by
  unfold leapsBefore
  rw [List.range_succ, List.countP_append]
  simp [List.countP_cons]

lemma leapsBefore_mono {y z : Nat} (h : y ≤ z) : leapsBefore y ≤ leapsBefore z :=
  (List.range_sublist.mpr h).countP_le _

lemma daysBeforeMonth_succ (y m : Nat) (hm : 1 ≤ m) :
    daysBeforeMonth y (m + 1) = daysBeforeMonth y m + daysInMonth y m := by
  cases m with
  | zero => omega
  | succ k => simp [daysBeforeMonth]

lemma daysBeforeMonth_twelve (y : Nat) : daysBeforeMonth y 12 = 336 := by
  norm_num [daysBeforeMonth, daysInMonth]

lemma daysBeforeMonth_one (y : Nat) : daysBeforeMonth y 1 = 0 := by
  simp [daysBeforeMonth]

lemma daysBeforeMonth_le_succ (y m : Nat) :
    daysBeforeMonth y m ≤ daysBeforeMonth y (m + 1) := by
  cases m with
  | zero => simp [daysBeforeMonth]
  | succ k => simp [daysBeforeMonth]

lemma daysBeforeMonth_mono (y : Nat) {m m' : Nat} (h : m ≤ m') :
    daysBeforeMonth y m ≤ daysBeforeMonth y m' := by
  induction m' with
  | zero => simp_all
  | succ k ih =>
    rcases Nat.lt_or_ge m (k + 1) with hlt | hge
    · exact le_trans (ih (by omega)) (daysBeforeMonth_le_succ y k)
    · have : m = k + 1 := by omega
      subst this; exact le_rfl

/-- Moving to the next day adds exactly one to the ordinal (on valid dates). -/
lemma toOrd_nextDay {d : JDate} (hd : ValidDate d) :
    toOrd (nextDay d) = toOrd d + 1 := by
  obtain ⟨hm1, hm2, hd1, hd2⟩ := hd
  unfold nextDay
  split
  · simp [toOrd]; omega
  · rename_i hnotlt
    have hday : d.day = daysInMonth d.year d.month := by omega
    split
    · rename_i hmlt
      simp only [toOrd]
      rw [daysBeforeMonth_succ d.year d.month hm1]
      omega
    · rename_i hmnotlt
      have hm12 : d.month = 12 := by omega
      simp only [toOrd, daysBeforeMonth_one, leapsBefore_succ]
      rw [hm12] at hday
      rw [hm12, daysBeforeMonth_twelve]
      have hdim : daysInMonth d.year 12 = if isleap d.year then 30 else 29 := by
        unfold daysInMonth; norm_num
      rw [hdim] at hday
      split at hday <;> simp_all <;> omega

lemma validDate_nextDay {d : JDate} (hd : ValidDate d) : ValidDate (nextDay d) := by
  obtain ⟨hm1, hm2, hd1, hd2⟩ := hd
  have h1 := daysInMonth_pos d.year (d.month + 1)
  have h2 := daysInMonth_pos (d.year + 1) 1
  unfold ValidDate nextDay
  split
  · rename_i h
    refine ⟨hm1, hm2, ?_, ?_⟩
    · show 1 ≤ d.day + 1; omega
    · show d.day + 1 ≤ daysInMonth d.year d.month; omega
  · split
    · refine ⟨?_, ?_, ?_, ?_⟩
      · show 1 ≤ d.month + 1; omega
      · show d.month + 1 ≤ 12; rename_i h h'; omega
      · show 1 ≤ 1; omega
      · show 1 ≤ daysInMonth d.year (d.month + 1); omega
    · refine ⟨?_, ?_, ?_, ?_⟩
      · show 1 ≤ 1; omega
      · show 1 ≤ 12; omega
      · show 1 ≤ 1; omega
      · show 1 ≤ daysInMonth (d.year + 1) 1; omega

lemma toOrd_lower {d : JDate} (hd : ValidDate d) :
    365 * d.year + leapsBefore d.year < toOrd d := by
  obtain ⟨_, _, hd1, _⟩ := hd
  unfold toOrd
  omega

lemma daysBeforeMonth_add_daysInMonth_le (y m : Nat) (hm1 : 1 ≤ m) (hm2 : m ≤ 12) :
    daysBeforeMonth y m + daysInMonth y m ≤ 365 + (if isleap y then 1 else 0) := by
  interval_cases m <;> norm_num [daysBeforeMonth, daysInMonth] <;> split <;> omega

lemma toOrd_upper {d : JDate} (hd : ValidDate d) :
    toOrd d ≤ 365 * (d.year + 1) + leapsBefore (d.year + 1) := by
  obtain ⟨hm1, hm2, hd1, hd2⟩ := hd
  have h := daysBeforeMonth_add_daysInMonth_le d.year d.month hm1 hm2
  have h2 := leapsBefore_succ d.year
  unfold toOrd
  cases hl : isleap d.year <;> rw [hl] at h h2 <;> simp at h h2 <;> omega

lemma toOrd_lt_of_year_lt {a b : JDate} (ha : ValidDate a) (hb : ValidDate b)
    (h : a.year < b.year) : toOrd a < toOrd b := by
  have h1 := toOrd_upper ha
  have h2 := toOrd_lower hb
  have h3 : 365 * (a.year + 1) ≤ 365 * b.year := by omega
  have h4 := leapsBefore_mono (show a.year + 1 ≤ b.year by omega)
  omega

/-- The ordinal is injective on valid dates. -/
lemma toOrd_inj {a b : JDate} (ha : ValidDate a) (hb : ValidDate b)
    (h : toOrd a = toOrd b) : a = b := by
  have hy : a.year = b.year := by
    rcases lt_trichotomy a.year b.year with hlt | heq | hgt
    · exact absurd h (Nat.ne_of_lt (toOrd_lt_of_year_lt ha hb hlt))
    · exact heq
    · exact absurd h.symm (Nat.ne_of_lt (toOrd_lt_of_year_lt hb ha hgt))
  obtain ⟨ham1, ham2, had1, had2⟩ := ha
  obtain ⟨hbm1, hbm2, hbd1, hbd2⟩ := hb
  have hsum : daysBeforeMonth a.year a.month + a.day
      = daysBeforeMonth a.year b.month + b.day := by
    unfold toOrd at h
    rw [hy] at h ⊢
    omega
  have hm : a.month = b.month := by
    by_contra hne
    rcases Nat.lt_or_ge a.month b.month with hlt | hge
    · have h1 : daysBeforeMonth a.year a.month + a.day
          ≤ daysBeforeMonth a.year (a.month + 1) := by
        rw [daysBeforeMonth_succ a.year a.month ham1]; omega
      have h2 := daysBeforeMonth_mono a.year (show a.month + 1 ≤ b.month by omega)
      omega
    · have hgt : b.month < a.month := by omega
      have h1 : daysBeforeMonth a.year b.month + b.day
          ≤ daysBeforeMonth a.year (b.month + 1) := by
        rw [daysBeforeMonth_succ a.year b.month hbm1]
        rw [← hy] at hbd2
        omega
      have h2 := daysBeforeMonth_mono a.year (show b.month + 1 ≤ a.month by omega)
      omega
  have hd : a.day = b.day := by rw [hm] at hsum; omega
  cases a; cases b; simp_all

/-! ### Decimal digits, `strftime('%Y-%m-%d')` and `strptime(_, '%Y-%m-%d')` -/

/-- Little-endian base-10 digits of `n`, with explicit fuel so that the
definition is structurally recursive (and kernel-reducible). -/
def natDigitsAux : Nat → Nat → List Nat
  | 0, _ => []
  | fuel + 1, n => if n = 0 then [] else n % 10 :: natDigitsAux fuel (n / 10)

/-- Little-endian base-10 digits of `n` (`[]` for 0). -/
def natDigits (n : Nat) : List Nat := natDigitsAux n n

/-- Value of a little-endian digit list. -/
def ofDigitsLE : List Nat → Nat
  | [] => 0
  | d :: l => d + 10 * ofDigitsLE l

def digitChar (n : Nat) : Char := Char.ofNat (48 + n)

def charDigit (c : Char) : Nat := c.toNat - 48

def isDigitChar (c : Char) : Bool := 48 ≤ c.toNat && c.toNat ≤ 57

/-- Value of a big-endian digit string (the accumulator fold a parser uses). -/
def digitsVal (l : List Char) : Nat := l.foldl (fun a c => 10 * a + charDigit c) 0

/-- Big-endian digits of `n`, left-padded with zeros to width `w` — the digit
block that `strftime` emits for a zero-padded field. -/
def padDigits (w n : Nat) : List Nat :=
  List.replicate (w - (natDigits n).reverse.length) 0 ++ (natDigits n).reverse

/-- `cursor.strftime('%Y-%m-%d')`: the normalized date string
(4-digit year, 2-digit month, 2-digit day, separated by `-`). -/
def formatDate (d : JDate) : String :=
  ⟨(padDigits 4 d.year).map digitChar ++
    '-' :: ((padDigits 2 d.month).map digitChar ++
      '-' :: (padDigits 2 d.day).map digitChar)⟩

/-- `jdatetime.datetime.strptime(s, '%Y-%m-%d')` on the normalized form the
program itself writes; `none` models the `ValueError` raised on a
non-matching or out-of-range string. -/
def parseDate (s : String) : Option JDate :=
  match s.data with
  | [y1, y2, y3, y4, s1, m1, m2, s2, d1, d2] =>
    if (s1 == '-') && (s2 == '-')
        && ([y1, y2, y3, y4, m1, m2, d1, d2].all isDigitChar) then
      if 1 ≤ digitsVal [m1, m2] ∧ digitsVal [m1, m2] ≤ 12 ∧ 1 ≤ digitsVal [d1, d2] ∧
          digitsVal [d1, d2] ≤ daysInMonth (digitsVal [y1, y2, y3, y4]) (digitsVal [m1, m2]) then
        some ⟨digitsVal [y1, y2, y3, y4], digitsVal [m1, m2], digitsVal [d1, d2]⟩
      else none
    else none
  | _ => none

lemma natDigitsAux_spec : ∀ fuel n, n ≤ fuel → ofDigitsLE (natDigitsAux fuel n) = n := by
  intro fuel
  induction fuel with
  | zero => intro n h; simp [natDigitsAux, ofDigitsLE]; omega
  | succ k ih =>
    intro n h
    unfold natDigitsAux
    by_cases hn : n = 0
    · simp [hn, ofDigitsLE]
    · have hlt : n / 10 < n := Nat.div_lt_self (by omega) (by omega)
      simp only [hn, if_false, ofDigitsLE]
      rw [ih (n / 10) (by omega)]
      omega

lemma natDigitsAux_lt_ten : ∀ fuel n x, x ∈ natDigitsAux fuel n → x < 10 := by
  intro fuel
  induction fuel with
  | zero => simp [natDigitsAux]
  | succ k ih =>
    intro n x hx
    unfold natDigitsAux at hx
    by_cases hn : n = 0
    · simp [hn] at hx
    · simp only [hn, if_false, List.mem_cons] at hx
      rcases hx with h | h
      · omega
      · exact ih _ _ h

lemma natDigitsAux_length : ∀ fuel n k, n < 10 ^ k → (natDigitsAux fuel n).length ≤ k := by
  intro fuel
  induction fuel with
  | zero => simp [natDigitsAux]
  | succ f ih =>
    intro n k hk
    unfold natDigitsAux
    by_cases hn : n = 0
    · simp [hn]
    · have hk0 : k ≠ 0 := by
        intro h; rw [h] at hk; simp at hk; omega
      obtain ⟨k', rfl⟩ : ∃ k', k = k' + 1 := ⟨k - 1, by omega⟩
      have hdiv : n / 10 < 10 ^ k' := by
        rw [Nat.div_lt_iff_lt_mul (by omega)]
        calc n < 10 ^ (k' + 1) := hk
        _ = 10 ^ k' * 10 := by ring
      simp only [hn, if_false, List.length_cons]
      have := ih (n / 10) k' hdiv
      omega

lemma valBE_replicate_zero : ∀ k, List.foldl (fun a d => 10 * a + d) 0 (List.replicate k 0) = 0 := by
  intro k
  induction k with
  | zero => rfl
  | succ j ih => simpa [List.replicate_succ] using ih

lemma valBE_reverse : ∀ l : List Nat,
    List.foldl (fun a d => 10 * a + d) 0 l.reverse = ofDigitsLE l := by
  intro l
  induction l with
  | nil => rfl
  | cons d l ih =>
    simp only [List.reverse_cons, List.foldl_append, ih, List.foldl, ofDigitsLE]
    omega

lemma padDigits_val (w n : Nat) :
    List.foldl (fun a d => 10 * a + d) 0 (padDigits w n) = n := by
  unfold padDigits
  rw [List.foldl_append, valBE_replicate_zero, valBE_reverse]
  exact natDigitsAux_spec n n le_rfl

lemma padDigits_lt_ten {w n x : Nat} (hx : x ∈ padDigits w n) : x < 10 := by
  unfold padDigits at hx
  rcases List.mem_append.mp hx with h | h
  · have := List.eq_of_mem_replicate h; omega
  · exact natDigitsAux_lt_ten n n x (List.mem_reverse.mp h)

lemma padDigits_length {w n : Nat} (h : n < 10 ^ w) : (padDigits w n).length = w := by
  unfold padDigits natDigits
  have := natDigitsAux_length n n w h
  simp only [List.length_append, List.length_replicate, List.length_reverse]
  omega

lemma charDigit_digitChar (x : Nat) (h : x < 10) : charDigit (digitChar x) = x := by
  interval_cases x <;> decide

lemma isDigitChar_digitChar (x : Nat) (h : x < 10) : isDigitChar (digitChar x) = true := by
  interval_cases x <;> decide

lemma exists_four {α : Type} {l : List α} (h : l.length = 4) :
    ∃ a b c d, l = [a, b, c, d] := by
  rcases l with _ | ⟨a, l⟩
  · simp at h
  rcases l with _ | ⟨b, l⟩
  · simp at h
  rcases l with _ | ⟨c, l⟩
  · simp at h
  rcases l with _ | ⟨d, l⟩
  · simp at h
  rcases l with _ | ⟨e, l⟩
  · exact ⟨a, b, c, d, rfl⟩
  · simp at h

lemma exists_two {α : Type} {l : List α} (h : l.length = 2) :
    ∃ a b, l = [a, b] := by
  rcases l with _ | ⟨a, l⟩
  · simp at h
  rcases l with _ | ⟨b, l⟩
  · simp at h
  rcases l with _ | ⟨c, l⟩
  · exact ⟨a, b, rfl⟩
  · simp at h

/-- Round-trip of the checkpoint serialization: parsing the normalized string
written for a valid date recovers exactly that date. -/
lemma parseDate_formatDate {d : JDate} (hd : ValidDate d) (hy : d.year < 10000) :
    parseDate (formatDate d) = some d := by
  obtain ⟨hm1, hm2, hd1, hd2⟩ := hd
  have hdim := daysInMonth_le d.year d.month
  have hm100 : d.month < 100 := by omega
  have hd100 : d.day < 100 := by omega
  obtain ⟨a, b, c, e, hY⟩ := exists_four (padDigits_length (show d.year < 10 ^ 4 by norm_num; omega))
  obtain ⟨f, g, hM⟩ := exists_two (padDigits_length (show d.month < 10 ^ 2 by norm_num; omega))
  obtain ⟨p, q, hD⟩ := exists_two (padDigits_length (show d.day < 10 ^ 2 by norm_num; omega))
  have ha : a < 10 := padDigits_lt_ten (by rw [hY]; simp)
  have hb : b < 10 := padDigits_lt_ten (by rw [hY]; simp)
  have hc : c < 10 := padDigits_lt_ten (by rw [hY]; simp)
  have he : e < 10 := padDigits_lt_ten (by rw [hY]; simp)
  have hf : f < 10 := padDigits_lt_ten (by rw [hM]; simp)
  have hg : g < 10 := padDigits_lt_ten (by rw [hM]; simp)
  have hp : p < 10 := padDigits_lt_ten (by rw [hD]; simp)
  have hq : q < 10 := padDigits_lt_ten (by rw [hD]; simp)
  have hYv : digitsVal [digitChar a, digitChar b, digitChar c, digitChar e] = d.year := by
    have h := padDigits_val 4 d.year
    rw [hY] at h
    simp only [digitsVal, List.foldl, charDigit_digitChar a ha, charDigit_digitChar b hb,
      charDigit_digitChar c hc, charDigit_digitChar e he] at *
    omega
  have hMv : digitsVal [digitChar f, digitChar g] = d.month := by
    have h := padDigits_val 2 d.month
    rw [hM] at h
    simp only [digitsVal, List.foldl, charDigit_digitChar f hf,
      charDigit_digitChar g hg] at *
    omega
  have hDv : digitsVal [digitChar p, digitChar q] = d.day := by
    have h := padDigits_val 2 d.day
    rw [hD] at h
    simp only [digitsVal, List.foldl, charDigit_digitChar p hp,
      charDigit_digitChar q hq] at *
    omega
  unfold formatDate
  rw [hY, hM, hD]
  unfold parseDate
  simp only [List.map_cons, List.map_nil, List.cons_append, List.nil_append]
  simp only [List.all_cons, List.all_nil, isDigitChar_digitChar a ha,
    isDigitChar_digitChar b hb, isDigitChar_digitChar c hc, isDigitChar_digitChar e he,
    isDigitChar_digitChar f hf, isDigitChar_digitChar g hg, isDigitChar_digitChar p hp,
    isDigitChar_digitChar q hq, beq_self_eq_true, Bool.and_self, Bool.and_true, if_true]
  rw [hYv, hMv, hDv]
  rw [if_pos ⟨hm1, hm2, hd1, hd2⟩]

/-- `strptime` only produces well-formed dates. -/
lemma parseDate_valid {s : String} {d : JDate} (h : parseDate s = some d) :
    ValidDate d := by
  unfold parseDate at h
  split at h
  · split at h
    · split at h
      · rename_i hcond
        injection h with h'
        subst h'
        exact hcond
      · exact absurd h (by simp)
    · exact absurd h (by simp)
  · exact absurd h (by simp)

/-! ### Crawler data model (`TgjuCurrencyPriceCrawler`) -/

/-- `CONFIG['min-starting-date'] = '1393-01-01'`. -/
def minStartingDate : JDate := ⟨1393, 1, 1⟩

/-- `CONFIG['max-ending-date'] = '1400-12-29'`. -/
def maxEndingDate : JDate := ⟨1400, 12, 29⟩

/-- The JSON record the archive endpoint returns.  Every field is optional:
a response of unexpected shape is written through as nulls for the missing
fields.  Values are kept as strings (the dataset is handled with
`dtype=object`). -/
structure ApiResponse where
  id : Option String
  item_id : Option String
  name : Option String
  price : Option String
  high : Option String
  low : Option String
  open_ : Option String
  time : Option String
  updated_at : Option String
deriving DecidableEq

/-- One dataset row, with the fixed column list of `self.columns`
(`date, day, off, id, item_id, name, price, high, low, open, time,
updated_at`; the source column `open` is a Lean keyword, rendered `open_`). -/
structure Row where
  date : String
  day : String
  off : Nat
  id : Option String
  item_id : Option String
  name : Option String
  price : Option String
  high : Option String
  low : Option String
  open_ : Option String
  time : Option String
  updated_at : Option String
deriving DecidableEq

/-- Persian short weekday names (Saturday first), the labels `strftime('%a')`
produces under the `fa_IR` locale set in `__init__`. -/
def weekNamesFa : List String :=
  ["شنبه", "یکشنبه", "دوشنبه", "سه‌شنبه", "چهارشنبه", "پنجشنبه", "جمعه"]

/-- `cursor.strftime('%a')`: weekday label of a Jalali date.  The anchor 3 is
fixed so that 1393-01-01 (Gregorian 2014-03-21, a Friday) maps to جمعه,
matching `jdatetime`. -/
def weekdayName (d : JDate) : String :=
  weekNamesFa.getD ((toOrd d + 3) % 7) ""

/-- The row built in the loop body: the response columns of the JSON record,
then `date`, `off` and `day` stamped over it (lines 183–186 of the source). -/
def makeRow (resp : ApiResponse) (c : JDate) : Row :=
  { date := formatDate c
    day := weekdayName c
    off := 0
    id := resp.id
    item_id := resp.item_id
    name := resp.name
    price := resp.price
    high := resp.high
    low := resp.low
    open_ := resp.open_
    time := resp.time
    updated_at := resp.updated_at }

/-- `drop_duplicates(ignore_index=True)`: keep the first occurrence of every
fully identical row. -/
def dropDuplicates (rows : List Row) : List Row :=
  rows.foldl (fun acc r => if r ∈ acc then acc else acc ++ [r]) []

/-- Observable file/network/console effects of a run, in program order.
Reads and writes of the two files and the HTTP GET are the I/O events;
`printCrawling`, `printProgress` and the two notices are console output. -/
inductive Event where
  | readCkpt : Event
  | noticeFresh : Event
  | saveCkpt : JDate → Bool → Event
  | noticeWriteFail : Event
  | readData : Event
  | printCrawling : JDate → Event
  | fetchReq : Nat → Nat → Nat → Event
  | writeData : Event
  | printProgress : Event
deriving DecidableEq

/-- The on-disk state the crawler touches.  `resumeFile = none` models a
missing (or unreadable: both raise `IOError`) checkpoint file;
`resumeWritable = false` makes every checkpoint write fail with `IOError`.
`dataFile` is the dataset file, as the list of rows it serializes. -/
structure FS where
  resumeFile : Option String
  resumeWritable : Bool
  dataFile : Option (List Row)
deriving DecidableEq

/-- In-memory state of a `TgjuCurrencyPriceCrawler` together with the
filesystem and the event trace. -/
structure CrawlerState where
  fs : FS
  all_data : List Row
  date_counter : JDate
  starting_date : JDate
  ending_date : JDate
  events : List Event
deriving DecidableEq

/-- Fatal terminations of `start`: the three `SystemExit` range errors and
the uncaught `ValueError` of `strptime` on an unparsable checkpoint file. -/
inductive RunError where
  | invalidRange : RunError
  | belowMinimum : RunError
  | aboveMaximum : RunError
  | valueError : RunError
deriving DecidableEq

/-- Result of `start`: final state plus the fatal error, if one occurred. -/
structure RunResult where
  state : CrawlerState
  error : Option RunError
deriving DecidableEq

/-- `save_resume_data` (lines 129–136): overwrite the checkpoint file with
the normalized cursor string; an `IOError` is caught and printed, the run
continues. -/
def save_resume_data (st : CrawlerState) (c : JDate) : CrawlerState :=
  if st.fs.resumeWritable then
    { st with fs := { st.fs with resumeFile := some (formatDate c) }
              events := st.events ++ [.saveCkpt c true] }
  else
    { st with events := st.events ++ [.saveCkpt c false, .noticeWriteFail] }

/-- `load_resume_data` (lines 119–127): read the checkpoint file and parse it
with `strptime`; on `IOError` (missing/unreadable file) print a notice and
fall back to `starting_date`.  A file that reads but does not parse raises
`ValueError`, which is not caught — modelled as `none`. -/
def load_resume_data (st : CrawlerState) : Option CrawlerState :=
  match st.fs.resumeFile with
  | some s =>
    match parseDate s with
    | some d => some { st with date_counter := d, events := st.events ++ [.readCkpt] }
    | none => none
  | none =>
    some { st with date_counter := st.starting_date
                   events := st.events ++ [.readCkpt, .noticeFresh] }

/-- `load_data` (lines 138–146): attempt `pd.read_csv`; the `except` branch
resets to an empty frame on `IOError`, and the `finally` branch then resets
unconditionally, so the read is always discarded. -/
def load_data (st : CrawlerState) : CrawlerState :=
  let st1 : CrawlerState := { st with events := st.events ++ [.readData] }
  let afterTry :=
    match st1.fs.dataFile with
    | some rows => { st1 with all_data := rows }
    | none => { st1 with all_data := [] }
  { afterTry with all_data := [] }

/-- One iteration of the `while` loop (lines 173–195) processing day `c`:
print progress, persist the checkpoint for the *current* day, issue the GET,
stamp and append the row, flush the whole dataset to disk, advance the
cursor in memory. -/
def iterAt (oracle : JDate → ApiResponse) (st : CrawlerState) (c : JDate) : CrawlerState :=
  let st1 : CrawlerState := { st with events := st.events ++ [.printCrawling c] }
  let st2 := save_resume_data st1 c
  let st3 : CrawlerState := { st2 with events := st2.events ++ [.fetchReq c.year c.month c.day] }
  let row := makeRow (oracle c) c
  let st4 := { st3 with all_data := st3.all_data ++ [row] }
  let st5 : CrawlerState :=
    { st4 with fs := { st4.fs with dataFile := some st4.all_data },
               events := st4.events ++ [.writeData] }
  { st5 with date_counter := nextDay c, events := st5.events ++ [.printProgress] }

/-- The loop body applied at the current cursor. -/
def iterBody (oracle : JDate → ApiResponse) (st : CrawlerState) : CrawlerState :=
  iterAt oracle st st.date_counter

/-- `while self.date_counter <= self.ending_date` (line 173).  The fuel makes
the recursion structural; `start` supplies `delta.days + 1` (computed on
line 170 of the source as `remaining_items`), which never runs out on the
valid dates `strptime` produces. -/
def fetchLoop (oracle : JDate → ApiResponse) : Nat → CrawlerState → CrawlerState
  | 0, st => st
  | fuel + 1, st =>
    if toOrd st.date_counter ≤ toOrd st.ending_date then
      fetchLoop oracle fuel (iterBody oracle st)
    else st

/-- `start` (lines 148–197).  The string arguments of the source are passed
through `strptime` before use; the embedding takes the parsed dates
directly (`none` selects the `min`/`max` defaults as in the source).
Validation raises `SystemExit` before any file or network I/O; then
checkpoint and dataset are loaded and the fetch loop runs; finally the
`drop_duplicates` result is computed and discarded (line 197). -/
def start (oracle : JDate → ApiResponse) (fs : FS)
    (startArg endArg : Option JDate) : RunResult :=
  let starting := startArg.getD minStartingDate
  let ending := endArg.getD maxEndingDate
  let st0 : CrawlerState :=
    { fs := fs, all_data := [], date_counter := starting,
      starting_date := starting, ending_date := ending, events := [] }
  if toOrd ending < toOrd starting then ⟨st0, some .invalidRange⟩
  else if toOrd starting < toOrd minStartingDate then ⟨st0, some .belowMinimum⟩
  else if toOrd maxEndingDate < toOrd ending then ⟨st0, some .aboveMaximum⟩
  else
    match load_resume_data st0 with
    | none => ⟨st0, some .valueError⟩
    | some st1 =>
      let st2 := load_data st1
      let st3 := fetchLoop oracle (toOrd st2.ending_date + 1 - toOrd st2.date_counter) st2
      let _deduped := dropDuplicates st3.all_data
      ⟨st3, none⟩

/-! ### Specification devices: the day list and the iteration trace -/

/-- The days the loop visits: `c, c+1, …` while the cursor stays `≤ e`.
(The `ValidDate` guard — always true on the cursors `strptime` produces —
makes the recursion well-founded.) -/
def dayList (e : JDate) (c : JDate) : List JDate :=
  if h : ValidDate c ∧ toOrd c ≤ toOrd e then c :: dayList e (nextDay c) else []
termination_by toOrd e + 1 - toOrd c
decreasing_by
  rw [toOrd_nextDay h.1]
  omega

lemma dayList_nil {e c : JDate} (h : ¬(ValidDate c ∧ toOrd c ≤ toOrd e)) :
    dayList e c = [] := by
  rw [dayList]
  exact dif_neg h

lemma dayList_cons {e c : JDate} (hv : ValidDate c) (hle : toOrd c ≤ toOrd e) :
    dayList e c = c :: dayList e (nextDay c) := by
  rw [dayList]
  exact dif_pos ⟨hv, hle⟩

/-- Every visited day is valid and lies between the initial cursor and the
ending date. -/
lemma dayList_mem {e : JDate} :
    ∀ n c, toOrd e + 1 - toOrd c ≤ n → ∀ d, d ∈ dayList e c →
      ValidDate d ∧ toOrd c ≤ toOrd d ∧ toOrd d ≤ toOrd e := by
  intro n
  induction n with
  | zero =>
    intro c hn d hd
    rw [dayList_nil (by intro hh; omega)] at hd
    simp at hd
  | succ k ih =>
    intro c hn d hd
    by_cases hg : ValidDate c ∧ toOrd c ≤ toOrd e
    · rw [dayList_cons hg.1 hg.2] at hd
      rcases List.mem_cons.mp hd with rfl | hmem
      · exact ⟨hg.1, le_rfl, hg.2⟩
      · have hstep := toOrd_nextDay hg.1
        have hrec := ih (nextDay c) (by omega) d hmem
        exact ⟨hrec.1, by omega, hrec.2.2⟩
    · rw [dayList_nil hg] at hd
      simp at hd

/-- The last element of a (nonempty) day list, with an irrelevant default. -/
def lastDay (l : List JDate) : JDate := l.getLast?.getD minStartingDate

lemma lastDay_singleton (d : JDate) : lastDay [d] = d := rfl

lemma lastDay_cons {l : List JDate} (d : JDate) (h : l ≠ []) :
    lastDay (d :: l) = lastDay l := by
  rcases l with _ | ⟨x, xs⟩
  · exact absurd rfl h
  · simp [lastDay, List.getLast?_cons_cons]

/-- The loop runs through to the ending date: the last visited day is `e`. -/
lemma dayList_lastDay {e : JDate} (hve : ValidDate e) :
    ∀ n c, toOrd e + 1 - toOrd c ≤ n → ValidDate c → toOrd c ≤ toOrd e →
      lastDay (dayList e c) = e := by
  intro n
  induction n with
  | zero => intro c hn hv hle; omega
  | succ k ih =>
    intro c hn hv hle
    have hstep := toOrd_nextDay hv
    rw [dayList_cons hv hle]
    by_cases h2 : toOrd (nextDay c) ≤ toOrd e
    · have htail := ih (nextDay c) (by omega) (validDate_nextDay hv) h2
      have hne : dayList e (nextDay c) ≠ [] := by
        rw [dayList_cons (validDate_nextDay hv) h2]
        simp
      rw [lastDay_cons c hne]
      exact htail
    · have hce : c = e := toOrd_inj hv hve (by omega)
      rw [dayList_nil (by intro hh; exact h2 hh.2)]
      rw [hce]
      rfl

lemma dayList_self {e : JDate} (hve : ValidDate e) : dayList e e = [e] := by
  rw [dayList_cons hve le_rfl]
  rw [dayList_nil (by intro hh; have := toOrd_nextDay hve; omega)]

/-- The rows appended for a list of days, in visiting order. -/
def rowsFor (oracle : JDate → ApiResponse) (l : List JDate) : List Row :=
  l.map (fun d => makeRow (oracle d) d)

/-- The events one iteration emits for day `d` (`w` = whether checkpoint
writes succeed). -/
def iterEvents (w : Bool) (d : JDate) : List Event :=
  [.printCrawling d] ++
    (if w then [.saveCkpt d true] else [.saveCkpt d false, .noticeWriteFail]) ++
    [.fetchReq d.year d.month d.day, .writeData, .printProgress]

/-- The event trace of the whole loop over a list of days. -/
def iterTrace (w : Bool) : List JDate → List Event
  | [] => []
  | d :: l => iterEvents w d ++ iterTrace w l

/-- Folding the loop body over an explicit list of days. -/
def applyDays (oracle : JDate → ApiResponse) (st : CrawlerState) (l : List JDate) :
    CrawlerState :=
  l.foldl (iterAt oracle) st

/-- Field-level description of a single loop iteration. -/
lemma iterAt_fields (oracle : JDate → ApiResponse) (st : CrawlerState) (c : JDate) :
    (iterAt oracle st c).fs.resumeWritable = st.fs.resumeWritable
    ∧ (iterAt oracle st c).starting_date = st.starting_date
    ∧ (iterAt oracle st c).ending_date = st.ending_date
    ∧ (iterAt oracle st c).date_counter = nextDay c
    ∧ (iterAt oracle st c).all_data = st.all_data ++ [makeRow (oracle c) c]
    ∧ (iterAt oracle st c).events = st.events ++ iterEvents st.fs.resumeWritable c
    ∧ (iterAt oracle st c).fs.dataFile = some (st.all_data ++ [makeRow (oracle c) c])
    ∧ (iterAt oracle st c).fs.resumeFile
        = (if st.fs.resumeWritable then some (formatDate c) else st.fs.resumeFile) := by
  unfold iterAt save_resume_data iterEvents
  by_cases hw : st.fs.resumeWritable <;> simp [hw]

/-- The fuelled `while` loop equals the fold of the body over `dayList`,
whenever the cursor is valid and the fuel covers the remaining days —
which the fuel `start` supplies always does. -/
lemma fetchLoop_eq_applyDays (oracle : JDate → ApiResponse) :
    ∀ fuel st, ValidDate st.date_counter →
      toOrd st.ending_date < toOrd st.date_counter + fuel →
      fetchLoop oracle fuel st
        = applyDays oracle st (dayList st.ending_date st.date_counter) := by
  intro fuel
  induction fuel with
  | zero =>
    intro st hv hf
    rw [dayList_nil (by intro hh; omega)]
    rfl
  | succ k ih =>
    intro st hv hf
    unfold fetchLoop
    by_cases hle : toOrd st.date_counter ≤ toOrd st.ending_date
    · rw [if_pos hle, dayList_cons hv hle]
      have hfields := iterAt_fields oracle st st.date_counter
      have hbody : iterBody oracle st = iterAt oracle st st.date_counter := rfl
      have hstep := toOrd_nextDay hv
      rw [hbody]
      have hrec := ih (iterAt oracle st st.date_counter)
        (by rw [hfields.2.2.2.1]; exact validDate_nextDay hv)
        (by rw [hfields.2.2.1, hfields.2.2.2.1]; omega)
      rw [hrec, hfields.2.2.1, hfields.2.2.2.1]
      rfl
    · rw [if_neg hle, dayList_nil (by intro hh; exact hle hh.2)]
      rfl

/-- Components of the state that the loop only threads through. -/
lemma applyDays_frame (oracle : JDate → ApiResponse) :
    ∀ l st,
      (applyDays oracle st l).fs.resumeWritable = st.fs.resumeWritable
      ∧ (applyDays oracle st l).starting_date = st.starting_date
      ∧ (applyDays oracle st l).ending_date = st.ending_date
      ∧ (applyDays oracle st l).all_data = st.all_data ++ rowsFor oracle l
      ∧ (applyDays oracle st l).events = st.events ++ iterTrace st.fs.resumeWritable l := by
  intro l
  induction l with
  | nil => intro st; simp [applyDays, rowsFor, iterTrace]
  | cons d t ih =>
    intro st
    have hstep := iterAt_fields oracle st d
    have hrec := ih (iterAt oracle st d)
    unfold applyDays at hrec ⊢
    rw [List.foldl_cons]
    refine ⟨?_, ?_, ?_, ?_, ?_⟩
    · rw [hrec.1, hstep.1]
    · rw [hrec.2.1, hstep.2.1]
    · rw [hrec.2.2.1, hstep.2.2.1]
    · rw [hrec.2.2.2.1, hstep.2.2.2.2.1]
      simp [rowsFor]
    · rw [hrec.2.2.2.2, hstep.2.2.2.2.2.1, hstep.1]
      simp [iterTrace]

/-- Effect of a nonempty run of iterations on the files and the cursor. -/
lemma applyDays_files (oracle : JDate → ApiResponse) :
    ∀ l st, l ≠ [] →
      (applyDays oracle st l).fs.dataFile = some (st.all_data ++ rowsFor oracle l)
      ∧ (applyDays oracle st l).fs.resumeFile
          = (if st.fs.resumeWritable then some (formatDate (lastDay l))
             else st.fs.resumeFile)
      ∧ (applyDays oracle st l).date_counter = nextDay (lastDay l) := by
  intro l
  induction l with
  | nil => intro st h; exact absurd rfl h
  | cons d t ih =>
    intro st _
    have hstep := iterAt_fields oracle st d
    rcases ht : t with _ | ⟨x, xs⟩
    · subst ht
      unfold applyDays
      rw [List.foldl_cons]
      simp only [List.foldl_nil, lastDay_singleton]
      refine ⟨?_, ?_, ?_⟩
      · rw [hstep.2.2.2.2.2.2.1]; simp [rowsFor]
      · exact hstep.2.2.2.2.2.2.2
      · exact hstep.2.2.2.1
    · rw [← ht]
      have htne : t ≠ [] := by rw [ht]; simp
      have hrec := ih (iterAt oracle st d) htne
      unfold applyDays at hrec ⊢
      rw [List.foldl_cons]
      rw [lastDay_cons d htne]
      refine ⟨?_, ?_, ?_⟩
      · rw [hrec.1, hstep.2.2.2.2.1]
        simp [rowsFor]
      · rw [hrec.2.1, hstep.1]
        by_cases hw : st.fs.resumeWritable
        · simp [hw]
        · simp [hw, hstep.2.2.2.2.2.2.2]
      · exact hrec.2.2

/-- The day of the first HTTP request in a trace, if any. -/
def firstFetch : List Event → Option (Nat × Nat × Nat)
  | [] => none
  | .fetchReq y m d :: _ => some (y, m, d)
  | _ :: rest => firstFetch rest

/-- Scans a trace and checks that every HTTP request for a day is preceded
by a checkpoint-write attempt for that same day (`saved` accumulates the
days whose checkpoint has been attempted so far). -/
def fetchesCovered (saved : List JDate) : List Event → Bool
  | [] => true
  | .saveCkpt d _ :: rest => fetchesCovered (d :: saved) rest
  | .fetchReq y m d :: rest =>
    decide ((⟨y, m, d⟩ : JDate) ∈ saved) && fetchesCovered saved rest
  | _ :: rest => fetchesCovered saved rest

lemma firstFetch_iterTrace (w : Bool) (d : JDate) (l : List JDate) :
    firstFetch (iterTrace w (d :: l)) = some (d.year, d.month, d.day) := by
  cases w <;> simp [iterTrace, iterEvents, firstFetch]

lemma fetchesCovered_iterTrace (w : Bool) :
    ∀ l saved, fetchesCovered saved (iterTrace w l) = true := by
  intro l
  induction l with
  | nil => intro saved; rfl
  | cons d t ih =>
    intro saved
    cases w <;> simp [iterTrace, iterEvents, fetchesCovered, ih]

lemma mem_iterTrace_fetchReq {w : Bool} {y m dd : Nat} :
    ∀ {l : List JDate}, Event.fetchReq y m dd ∈ iterTrace w l →
      ∃ d ∈ l, d.year = y ∧ d.month = m ∧ d.day = dd := by
  intro l
  induction l with
  | nil => intro h; simp [iterTrace] at h
  | cons d t ih =>
    intro h
    rcases List.mem_append.mp h with h1 | h2
    · cases w <;> simp [iterEvents] at h1 <;>
        exact ⟨d, by simp, h1.1.symm, h1.2.1.symm, h1.2.2.symm⟩
    · obtain ⟨x, hx, hxy⟩ := ih h2
      exact ⟨x, by simp [hx], hxy⟩

lemma mem_iterTrace_saveCkpt {w b : Bool} {d : JDate} :
    ∀ {l : List JDate}, Event.saveCkpt d b ∈ iterTrace w l → b = w := by
  intro l
  induction l with
  | nil => intro h; simp [iterTrace] at h
  | cons x t ih =>
    intro h
    rcases List.mem_append.mp h with h1 | h2
    · cases w <;> simp [iterEvents] at h1 <;> exact h1.2
    · exact ih h2

lemma noticeWriteFail_mem_iterTrace (d : JDate) (l : List JDate) :
    Event.noticeWriteFail ∈ iterTrace false (d :: l) := by
  simp [iterTrace, iterEvents]

/-! ### The two post-validation shapes of `start` -/

/-- State right after `load_resume_data` and `load_data` when the checkpoint
file exists and parses to `d0`. -/
def postLoadCkpt (fs : FS) (s e d0 : JDate) : CrawlerState :=
  { fs := fs, all_data := [], date_counter := d0,
    starting_date := s, ending_date := e,
    events := [.readCkpt, .readData] }

/-- State right after `load_resume_data` and `load_data` when the checkpoint
file is missing: the cursor falls back to the starting date and the fresh
notice is printed. -/
def postLoadFresh (fs : FS) (s e : JDate) : CrawlerState :=
  { fs := fs, all_data := [], date_counter := s,
    starting_date := s, ending_date := e,
    events := [.readCkpt, .noticeFresh, .readData] }

lemma start_run_ckpt (oracle : JDate → ApiResponse) (fs : FS) (s e d0 : JDate)
    {ck : String} (hck : fs.resumeFile = some ck) (hparse : parseDate ck = some d0)
    (h1 : toOrd s ≤ toOrd e) (h2 : toOrd minStartingDate ≤ toOrd s)
    (h3 : toOrd e ≤ toOrd maxEndingDate) :
    start oracle fs (some s) (some e)
      = ⟨applyDays oracle (postLoadCkpt fs s e d0) (dayList e d0), none⟩ := by
  have hv0 : ValidDate d0 := parseDate_valid hparse
  unfold start
  simp only [Option.getD_some]
  rw [if_neg (by omega), if_neg (by omega), if_neg (by omega)]
  have hload : load_resume_data
      { fs := fs, all_data := [], date_counter := s,
        starting_date := s, ending_date := e, events := [] }
      = some { fs := fs, all_data := [], date_counter := d0,
               starting_date := s, ending_date := e, events := [.readCkpt] } := by
    unfold load_resume_data
    simp [hck, hparse]
  rw [hload]
  have hdata : load_data
      { fs := fs, all_data := [], date_counter := d0,
        starting_date := s, ending_date := e, events := [.readCkpt] }
      = postLoadCkpt fs s e d0 := by
    unfold load_data postLoadCkpt
    cases hdf : fs.dataFile <;> simp [hdf]
  simp only [hdata]
  have hloop := fetchLoop_eq_applyDays oracle
    (toOrd (postLoadCkpt fs s e d0).ending_date + 1
      - toOrd (postLoadCkpt fs s e d0).date_counter)
    (postLoadCkpt fs s e d0) hv0 (by unfold postLoadCkpt; dsimp; omega)
  unfold postLoadCkpt at hloop ⊢
  dsimp at hloop ⊢
  rw [hloop]

lemma start_run_fresh (oracle : JDate → ApiResponse) (fs : FS) (s e : JDate)
    (hck : fs.resumeFile = none) (hvs : ValidDate s)
    (h1 : toOrd s ≤ toOrd e) (h2 : toOrd minStartingDate ≤ toOrd s)
    (h3 : toOrd e ≤ toOrd maxEndingDate) :
    start oracle fs (some s) (some e)
      = ⟨applyDays oracle (postLoadFresh fs s e) (dayList e s), none⟩ := by
  unfold start
  simp only [Option.getD_some]
  rw [if_neg (by omega), if_neg (by omega), if_neg (by omega)]
  have hload : load_resume_data
      { fs := fs, all_data := [], date_counter := s,
        starting_date := s, ending_date := e, events := [] }
      = some { fs := fs, all_data := [], date_counter := s,
               starting_date := s, ending_date := e,
               events := [.readCkpt, .noticeFresh] } := by
    unfold load_resume_data
    simp [hck]
  rw [hload]
  have hdata : load_data
      { fs := fs, all_data := [], date_counter := s,
        starting_date := s, ending_date := e,
        events := [.readCkpt, .noticeFresh] }
      = postLoadFresh fs s e := by
    unfold load_data postLoadFresh
    cases hdf : fs.dataFile <;> simp [hdf]
  simp only [hdata]
  have hloop := fetchLoop_eq_applyDays oracle
    (toOrd (postLoadFresh fs s e).ending_date + 1
      - toOrd (postLoadFresh fs s e).date_counter)
    (postLoadFresh fs s e) hvs (by unfold postLoadFresh; dsimp; omega)
  unfold postLoadFresh at hloop ⊢
  dsimp at hloop ⊢
  rw [hloop]

/-! ### Bounded retry with exponential backoff -/

/-- `status_forcelist=[429, 500, 502, 503, 504]` of the `Retry` strategy
built in `__init__` (line 86). -/
def retryableStatuses : List Nat := [429, 500, 502, 503, 504]

/-- `CONFIG['retry-times'] = 3` (line 31), the default attempt bound. -/
def retryTimesDefault : Nat := 3

/-- One wire-level response: a successful JSON body, an HTTP status, or a
connection-level failure. -/
inductive HttpResp where
  | ok : ApiResponse → HttpResp
  | status : Nat → HttpResp
  | connFail : HttpResp

/-- Outcome of a fetch through the retrying session. -/
inductive RetryOutcome where
  | success : ApiResponse → RetryOutcome
  | httpError : Nat → RetryOutcome
  | remoteUnavailable : RetryOutcome
deriving DecidableEq

/-- Result of a fetch: outcome, the backoff delays slept before each retry,
and the number of attempts performed. -/
structure RetryResult where
  outcome : RetryOutcome
  delays : List Nat
  attempts : Nat
deriving DecidableEq

instance : DecidableEq ApiResponse := by
  intro a b
  cases a
  cases b
  exact inferInstanceAs (Decidable _)

/-- Modelled from the spec: the bounded-retry executor configured on the
session (the executor itself is the `urllib3.util.retry.Retry` dependency,
not repository code).  Per the spec and the source comment on line 81:
up to `budget` attempts; a response whose status is in the force list, or a
connection failure, is retried after sleeping
`backoff_factor * 2 ** (attempt - 1)`; any other non-2xx status propagates
immediately; a 2xx response succeeds immediately.  `resp n` is the wire
response to the `n`-th attempt (1-based). -/
def retryRun (b : Nat) (resp : Nat → HttpResp) : Nat → Nat → RetryResult
  | 0, _ => ⟨.remoteUnavailable, [], 0⟩
  | budget + 1, attempt =>
    match resp attempt with
    | .ok body => ⟨.success body, [], 1⟩
    | .status c =>
      if c ∈ retryableStatuses then
        if budget = 0 then ⟨.remoteUnavailable, [], 1⟩
        else
          let r := retryRun b resp budget (attempt + 1)
          ⟨r.outcome, b * 2 ^ (attempt - 1) :: r.delays, r.attempts + 1⟩
      else ⟨.httpError c, [], 1⟩
    | .connFail =>
      if budget = 0 then ⟨.remoteUnavailable, [], 1⟩
      else
        let r := retryRun b resp budget (attempt + 1)
        ⟨r.outcome, b * 2 ^ (attempt - 1) :: r.delays, r.attempts + 1⟩

/-- A fetch through the session: at most `retryTimes` attempts, starting at
attempt number 1. -/
def fetchWithRetry (retryTimes b : Nat) (resp : Nat → HttpResp) : RetryResult :=
  retryRun b resp retryTimes 1

lemma retryRun_attempts_le (b : Nat) (resp : Nat → HttpResp) :
    ∀ budget attempt, (retryRun b resp budget attempt).attempts ≤ budget := by
  intro budget
  induction budget with
  | zero => intro attempt; simp [retryRun]
  | succ k ih =>
    intro attempt
    unfold retryRun
    cases resp attempt with
    | ok body => simp
    | status c =>
      by_cases hc : c ∈ retryableStatuses
      · by_cases hk : k = 0
        · simp [hc, hk]
        · have := ih (attempt + 1)
          simp [hc, hk]
          omega
      · simp [hc]
    | connFail =>
      by_cases hk : k = 0
      · simp [hk]
      · have := ih (attempt + 1)
        simp [hk]
        omega

/-- The fixed `[503, 503, 200]` response schedule of the spec scenario. -/
def responses503 (body : ApiResponse) : Nat → HttpResp :=
  fun a => if a = 1 then .status 503 else if a = 2 then .status 503 else .ok body

/-! ### Concrete scenario material -/

/-- The sample record documented in the source (comment at lines 99–100). -/
def sampleResponse : ApiResponse :=
  { id := some "4338529", item_id := some "137203", name := some "price_dollar_rl",
    price := some "30170", high := some "30200", low := some "30100",
    open_ := some "30100", time := some "2014-03-20 00:00:00",
    updated_at := some "2014-03-20 12:00:00" }

/-- A remote stub returning the same valid JSON record for every day. -/
def fixedOracle : JDate → ApiResponse := fun _ => sampleResponse

/-- A run over `[s, e]` against an empty results directory (no checkpoint,
no dataset file, checkpoint writes succeed). -/
def firstRun (oracle : JDate → ApiResponse) (df : Option (List Row)) (s e : JDate) :
    RunResult :=
  start oracle ⟨none, true, df⟩ (some s) (some e)

/-- The immediately repeated run over the same range, against the files the
first run left behind. -/
def secondRun (oracle : JDate → ApiResponse) (df : Option (List Row)) (s e : JDate) :
    RunResult :=
  start oracle (firstRun oracle df s e).state.fs (some s) (some e)

lemma ordMin_le_ordMax : toOrd minStartingDate ≤ toOrd maxEndingDate := by decide

/-- A date within the configured bounds has a four-digit year, so its
normalized string parses back. -/
lemma year_le_of_le_max {d : JDate} (hv : ValidDate d)
    (h : toOrd d ≤ toOrd maxEndingDate) : d.year ≤ 1400 := by
  have hl := toOrd_lower hv
  have hmax : toOrd maxEndingDate = 511705 := by decide
  have h1401 : leapsBefore 1401 = 340 := by decide
  by_contra hgt
  push_neg at hgt
  have hmono := leapsBefore_mono (show 1401 ≤ d.year by omega)
  omega

lemma dropDuplicates_nodup : ∀ rows : List Row, (dropDuplicates rows).Nodup := by
  have key : ∀ (rows acc : List Row), acc.Nodup →
      (rows.foldl (fun acc r => if r ∈ acc then acc else acc ++ [r]) acc).Nodup := by
    intro rows
    induction rows with
    | nil => intro acc h; exact h
    | cons r t ih =>
      intro acc h
      rw [List.foldl_cons]
      by_cases hr : r ∈ acc
      · rw [if_pos hr]; exact ih acc h
      · rw [if_neg hr]
        refine ih _ ?_
        simp [List.nodup_append, h, hr]
  intro rows
  exact key rows [] (by simp)

lemma dropDuplicates_pair : ∀ r : Row, dropDuplicates [r, r] = [r] := by
  intro r
  simp [dropDuplicates]

/-! ### The claims -/

/-- C1: In every iteration of the fetch loop the checkpoint is persisted
with the current (not yet fetched) day before that day's remote fetch is
issued, and a run started with a checkpoint file containing day `d` fetches
day `d` first, not `d + 1`: the run's trace is exactly the per-day blocks of
`iterTrace` starting at `d` (each block saves before it fetches), the first
HTTP request is for `d`, and every HTTP request in the trace is preceded by
a checkpoint-write attempt for the same day. -/
theorem c1_checkpoint_before_fetch (oracle : JDate → ApiResponse) (w : Bool)
    (df : Option (List Row)) (d : JDate) (hv : ValidDate d)
    (hle : toOrd d ≤ toOrd maxEndingDate) :
    (start oracle ⟨some (formatDate d), w, df⟩ none none).error = none
    ∧ (start oracle ⟨some (formatDate d), w, df⟩ none none).state.events
        = [.readCkpt, .readData] ++ iterTrace w (dayList maxEndingDate d)
    ∧ firstFetch (start oracle ⟨some (formatDate d), w, df⟩ none none).state.events
        = some (d.year, d.month, d.day)
    ∧ fetchesCovered [] (start oracle ⟨some (formatDate d), w, df⟩ none none).state.events
        = true := by
  have hy : d.year < 10000 := by
    have := year_le_of_le_max hv hle
    omega
  have hparse := parseDate_formatDate hv hy
  have hdflt : start oracle ⟨some (formatDate d), w, df⟩ none none
      = start oracle ⟨some (formatDate d), w, df⟩
          (some minStartingDate) (some maxEndingDate) := rfl
  rw [hdflt, start_run_ckpt oracle ⟨some (formatDate d), w, df⟩
    minStartingDate maxEndingDate d rfl hparse ordMin_le_ordMax le_rfl le_rfl]
  have hframe := applyDays_frame oracle (dayList maxEndingDate d)
    (postLoadCkpt ⟨some (formatDate d), w, df⟩ minStartingDate maxEndingDate d)
  refine ⟨rfl, ?_, ?_, ?_⟩
  · exact hframe.2.2.2.2
  · show firstFetch (applyDays oracle _ _).events = _
    rw [hframe.2.2.2.2, dayList_cons hv hle]
    exact firstFetch_iterTrace w d _
  · show fetchesCovered [] (applyDays oracle _ _).events = true
    rw [hframe.2.2.2.2]
    exact fetchesCovered_iterTrace w _ _

theorem c1_checkpoint_before_fetch_witness :
    firstFetch (start fixedOracle ⟨some (formatDate ⟨1400, 12, 29⟩), true, none⟩
        none none).state.events = some (1400, 12, 29)
    ∧ fetchesCovered [] (start fixedOracle ⟨some (formatDate ⟨1400, 12, 29⟩), true, none⟩
        none none).state.events = true := by
  have h := c1_checkpoint_before_fetch fixedOracle true none ⟨1400, 12, 29⟩
    (by decide) (by decide)
  exact ⟨h.2.2.1, h.2.2.2⟩

/-- C2: End-to-end run over the 3-day range 1393-01-01 to 1393-01-03 with a
stub returning a fixed valid JSON record every day: the resulting dataset
has exactly 3 rows with dates `1393-01-01`, `1393-01-02`, `1393-01-03` in
order, every row has a populated weekday label and `off = 0`, the dataset
file holds exactly the in-memory table, and the checkpoint file finally
holds `1393-01-03`, the last processed date — the state the loop's
increment timing dictates, since the checkpoint is written before each
fetch and the post-increment cursor is never persisted. -/
theorem c2_end_to_end :
    (start fixedOracle ⟨none, true, none⟩ (some ⟨1393, 1, 1⟩) (some ⟨1393, 1, 3⟩)).error
        = none
    ∧ ((start fixedOracle ⟨none, true, none⟩ (some ⟨1393, 1, 1⟩)
          (some ⟨1393, 1, 3⟩)).state.all_data.map Row.date)
        = ["1393-01-01", "1393-01-02", "1393-01-03"]
    ∧ (start fixedOracle ⟨none, true, none⟩ (some ⟨1393, 1, 1⟩)
          (some ⟨1393, 1, 3⟩)).state.all_data.length = 3
    ∧ (∀ r ∈ (start fixedOracle ⟨none, true, none⟩ (some ⟨1393, 1, 1⟩)
          (some ⟨1393, 1, 3⟩)).state.all_data, r.off = 0 ∧ r.day ≠ "")
    ∧ (start fixedOracle ⟨none, true, none⟩ (some ⟨1393, 1, 1⟩)
          (some ⟨1393, 1, 3⟩)).state.fs.dataFile
        = some (start fixedOracle ⟨none, true, none⟩ (some ⟨1393, 1, 1⟩)
          (some ⟨1393, 1, 3⟩)).state.all_data
    ∧ (start fixedOracle ⟨none, true, none⟩ (some ⟨1393, 1, 1⟩)
          (some ⟨1393, 1, 3⟩)).state.fs.resumeFile = some "1393-01-03" := by
  decide

/-- C3: Range validation rejects, in this order and before any file or
network I/O: requested start after requested end (`InvalidRange`), start
below the configured minimum (`BelowMinimum`), end above the configured
maximum (`AboveMaximum`); in each case the run terminates with an empty
event trace and the filesystem untouched. -/
theorem c3_range_validation (oracle : JDate → ApiResponse) (fs : FS) (s e : JDate) :
    (toOrd e < toOrd s →
      start oracle fs (some s) (some e)
        = ⟨⟨fs, [], s, s, e, []⟩, some .invalidRange⟩)
    ∧ (toOrd s ≤ toOrd e → toOrd s < toOrd minStartingDate →
      start oracle fs (some s) (some e)
        = ⟨⟨fs, [], s, s, e, []⟩, some .belowMinimum⟩)
    ∧ (toOrd s ≤ toOrd e → toOrd minStartingDate ≤ toOrd s →
        toOrd maxEndingDate < toOrd e →
      start oracle fs (some s) (some e)
        = ⟨⟨fs, [], s, s, e, []⟩, some .aboveMaximum⟩) := by
  refine ⟨?_, ?_, ?_⟩
  · intro h
    simp only [start, Option.getD_some]
    rw [if_pos (by omega)]
  · intro h hb
    simp only [start, Option.getD_some]
    rw [if_neg (by omega), if_pos (by omega)]
  · intro h hb ha
    simp only [start, Option.getD_some]
    rw [if_neg (by omega), if_neg (by omega), if_pos (by omega)]

theorem c3_range_validation_witness :
    (start fixedOracle ⟨none, true, none⟩ (some ⟨1393, 1, 2⟩) (some ⟨1393, 1, 1⟩)).error
        = some .invalidRange
    ∧ (start fixedOracle ⟨none, true, none⟩ (some ⟨1392, 1, 1⟩) (some ⟨1393, 1, 1⟩)).error
        = some .belowMinimum
    ∧ (start fixedOracle ⟨none, true, none⟩ (some ⟨1393, 1, 1⟩) (some ⟨1401, 1, 1⟩)).error
        = some .aboveMaximum := by
  refine ⟨?_, ?_, ?_⟩
  · rw [(c3_range_validation fixedOracle ⟨none, true, none⟩ ⟨1393, 1, 2⟩ ⟨1393, 1, 1⟩).1
      (by decide)]
  · rw [(c3_range_validation fixedOracle ⟨none, true, none⟩ ⟨1392, 1, 1⟩ ⟨1393, 1, 1⟩).2.1
      (by decide) (by decide)]
  · rw [(c3_range_validation fixedOracle ⟨none, true, none⟩ ⟨1393, 1, 1⟩ ⟨1401, 1, 1⟩).2.2
      (by decide) (by decide) (by decide)]

/-- C4: `load_data` attempts a read of the dataset file and then
unconditionally discards it: for every on-disk state (file present with any
rows, or absent) the in-memory table afterwards is the empty table, while
the read attempt is recorded and nothing else of the state changes. -/
theorem c4_load_data_always_resets (st : CrawlerState) :
    (load_data st).all_data = []
    ∧ (load_data st).events = st.events ++ [.readData]
    ∧ (load_data st).fs = st.fs
    ∧ (load_data st).date_counter = st.date_counter
    ∧ (load_data st).starting_date = st.starting_date
    ∧ (load_data st).ending_date = st.ending_date := by
  unfold load_data
  cases hdf : st.fs.dataFile <;> simp [hdf]

/-- C5: The dedupe step at the end of a full run computes a duplicate-free
table (`dropDuplicates` output has no duplicate rows, and it really shrinks
a duplicated input) but its result is never persisted or reassigned: the
final in-memory table and the persisted dataset file hold exactly the
appended rows in insertion order. -/
theorem c5_dedupe_discarded (oracle : JDate → ApiResponse) (w : Bool)
    (df : Option (List Row)) (s e : JDate) (hvs : ValidDate s)
    (h1 : toOrd s ≤ toOrd e) (h2 : toOrd minStartingDate ≤ toOrd s)
    (h3 : toOrd e ≤ toOrd maxEndingDate) :
    (start oracle ⟨none, w, df⟩ (some s) (some e)).error = none
    ∧ (start oracle ⟨none, w, df⟩ (some s) (some e)).state.all_data
        = rowsFor oracle (dayList e s)
    ∧ (start oracle ⟨none, w, df⟩ (some s) (some e)).state.fs.dataFile
        = some (rowsFor oracle (dayList e s))
    ∧ (∀ rows : List Row, (dropDuplicates rows).Nodup)
    ∧ (∀ r : Row, dropDuplicates [r, r] = [r]) := by
  rw [start_run_fresh oracle ⟨none, w, df⟩ s e rfl hvs h1 h2 h3]
  have hne : dayList e s ≠ [] := by
    rw [dayList_cons hvs h1]
    simp
  have hframe := applyDays_frame oracle (dayList e s) (postLoadFresh ⟨none, w, df⟩ s e)
  have hfiles := applyDays_files oracle (dayList e s) (postLoadFresh ⟨none, w, df⟩ s e) hne
  refine ⟨rfl, ?_, ?_, dropDuplicates_nodup, dropDuplicates_pair⟩
  · show (applyDays oracle _ _).all_data = _
    rw [hframe.2.2.2.1]
    rfl
  · show (applyDays oracle _ _).fs.dataFile = _
    rw [hfiles.1]
    rfl

theorem c5_dedupe_discarded_witness :
    (start fixedOracle ⟨none, true, none⟩ (some ⟨1393, 1, 1⟩) (some ⟨1393, 1, 1⟩)).error
        = none
    ∧ (start fixedOracle ⟨none, true, none⟩ (some ⟨1393, 1, 1⟩)
          (some ⟨1393, 1, 1⟩)).state.all_data
        = rowsFor fixedOracle (dayList ⟨1393, 1, 1⟩ ⟨1393, 1, 1⟩)
    ∧ dropDuplicates [makeRow sampleResponse ⟨1393, 1, 1⟩, makeRow sampleResponse ⟨1393, 1, 1⟩]
        = [makeRow sampleResponse ⟨1393, 1, 1⟩] := by
  have h := c5_dedupe_discarded fixedOracle true none ⟨1393, 1, 1⟩ ⟨1393, 1, 1⟩
    (by decide) (by decide) (by decide) (by decide)
  exact ⟨h.1, h.2.1, h.2.2.2.2 _⟩

/-- C6: Checkpoint round-trip: saving a valid in-bounds date `d` and loading
immediately afterwards yields exactly `d`, the file then holds the
normalized string of `d`, and saving the same cursor twice leaves the file
identical. -/
theorem c6_checkpoint_roundtrip (st : CrawlerState) (d : JDate)
    (hv : ValidDate d) (hmin : toOrd minStartingDate ≤ toOrd d)
    (hmax : toOrd d ≤ toOrd maxEndingDate)
    (hw : st.fs.resumeWritable = true) :
    (save_resume_data st d).fs.resumeFile = some (formatDate d)
    ∧ (∃ st2, load_resume_data (save_resume_data st d) = some st2
        ∧ st2.date_counter = d)
    ∧ (save_resume_data (save_resume_data st d) d).fs.resumeFile
        = (save_resume_data st d).fs.resumeFile := by
  have hy : d.year < 10000 := by
    have := year_le_of_le_max hv hmax
    omega
  have hparse := parseDate_formatDate hv hy
  have hsave : (save_resume_data st d).fs.resumeFile = some (formatDate d) := by
    simp [save_resume_data, hw]
  have hw2 : (save_resume_data st d).fs.resumeWritable = true := by
    simp [save_resume_data, hw]
  refine ⟨hsave, ?_, ?_⟩
  · unfold load_resume_data
    rw [hsave]
    simp only [hparse]
    exact ⟨_, rfl, rfl⟩
  · have hsave2 : (save_resume_data (save_resume_data st d) d).fs.resumeFile
        = some (formatDate d) := by
      simp [save_resume_data, hw2]
      simp [save_resume_data, hw]
    rw [hsave2, hsave]

theorem c6_checkpoint_roundtrip_witness :
    (save_resume_data ⟨⟨none, true, none⟩, [], ⟨1393, 1, 1⟩, ⟨1393, 1, 1⟩, ⟨1393, 1, 1⟩, []⟩
        ⟨1393, 5, 2⟩).fs.resumeFile = some (formatDate ⟨1393, 5, 2⟩)
    ∧ ((load_resume_data (save_resume_data
          ⟨⟨none, true, none⟩, [], ⟨1393, 1, 1⟩, ⟨1393, 1, 1⟩, ⟨1393, 1, 1⟩, []⟩
          ⟨1393, 5, 2⟩)).map CrawlerState.date_counter) = some ⟨1393, 5, 2⟩ := by
  have h := c6_checkpoint_roundtrip
    ⟨⟨none, true, none⟩, [], ⟨1393, 1, 1⟩, ⟨1393, 1, 1⟩, ⟨1393, 1, 1⟩, []⟩
    ⟨1393, 5, 2⟩ (by decide) (by decide) (by decide) rfl
  refine ⟨h.1, ?_⟩
  obtain ⟨st2, he, hd⟩ := h.2.1
  rw [he]
  simp [hd]

/-- C7: Checkpoint I/O failures never abort the run: with the checkpoint
file missing, load falls back to the starting date (printing the fresh-start
notice, and the first fetch is for the starting date, not an error), and
with every checkpoint write failing, each write attempt is recorded as
failed and printed while the fetch loop still visits every day of the
range; the checkpoint file stays absent. -/
theorem c7_checkpoint_failures (oracle : JDate → ApiResponse)
    (df : Option (List Row)) (s e : JDate) (hvs : ValidDate s)
    (h1 : toOrd s ≤ toOrd e) (h2 : toOrd minStartingDate ≤ toOrd s)
    (h3 : toOrd e ≤ toOrd maxEndingDate) :
    (start oracle ⟨none, false, df⟩ (some s) (some e)).error = none
    ∧ Event.noticeFresh ∈ (start oracle ⟨none, false, df⟩ (some s) (some e)).state.events
    ∧ firstFetch (start oracle ⟨none, false, df⟩ (some s) (some e)).state.events
        = some (s.year, s.month, s.day)
    ∧ (start oracle ⟨none, false, df⟩ (some s) (some e)).state.all_data
        = rowsFor oracle (dayList e s)
    ∧ (start oracle ⟨none, false, df⟩ (some s) (some e)).state.fs.resumeFile = none
    ∧ (∀ d b, Event.saveCkpt d b ∈ (start oracle ⟨none, false, df⟩
          (some s) (some e)).state.events → b = false)
    ∧ Event.noticeWriteFail ∈ (start oracle ⟨none, false, df⟩
        (some s) (some e)).state.events := by
  rw [start_run_fresh oracle ⟨none, false, df⟩ s e rfl hvs h1 h2 h3]
  have hne : dayList e s ≠ [] := by
    rw [dayList_cons hvs h1]
    simp
  have hframe := applyDays_frame oracle (dayList e s) (postLoadFresh ⟨none, false, df⟩ s e)
  have hfiles := applyDays_files oracle (dayList e s) (postLoadFresh ⟨none, false, df⟩ s e) hne
  refine ⟨rfl, ?_, ?_, ?_, ?_, ?_, ?_⟩
  · show Event.noticeFresh ∈ (applyDays oracle _ _).events
    rw [hframe.2.2.2.2]
    simp [postLoadFresh]
  · show firstFetch (applyDays oracle _ _).events = _
    rw [hframe.2.2.2.2, dayList_cons hvs h1]
    show firstFetch (iterTrace false (s :: dayList e (nextDay s)))
        = some (s.year, s.month, s.day)
    exact firstFetch_iterTrace false s (dayList e (nextDay s))
  · show (applyDays oracle _ _).all_data = _
    rw [hframe.2.2.2.1]
    rfl
  · show (applyDays oracle _ _).fs.resumeFile = none
    rw [hfiles.2.1]
    simp [postLoadFresh]
  · intro d b hmem
    rw [hframe.2.2.2.2] at hmem
    rcases List.mem_append.mp hmem with hpre | hit
    · simp [postLoadFresh] at hpre
    · exact mem_iterTrace_saveCkpt hit
  · show Event.noticeWriteFail ∈ (applyDays oracle _ _).events
    rw [hframe.2.2.2.2, dayList_cons hvs h1]
    exact List.mem_append_right _ (noticeWriteFail_mem_iterTrace s _)

theorem c7_checkpoint_failures_witness :
    (start fixedOracle ⟨none, false, none⟩ (some ⟨1393, 1, 1⟩) (some ⟨1393, 1, 1⟩)).error
        = none
    ∧ Event.noticeFresh ∈ (start fixedOracle ⟨none, false, none⟩ (some ⟨1393, 1, 1⟩)
        (some ⟨1393, 1, 1⟩)).state.events
    ∧ (start fixedOracle ⟨none, false, none⟩ (some ⟨1393, 1, 1⟩)
        (some ⟨1393, 1, 1⟩)).state.fs.resumeFile = none
    ∧ Event.noticeWriteFail ∈ (start fixedOracle ⟨none, false, none⟩ (some ⟨1393, 1, 1⟩)
        (some ⟨1393, 1, 1⟩)).state.events := by
  have h := c7_checkpoint_failures fixedOracle none ⟨1393, 1, 1⟩ ⟨1393, 1, 1⟩
    (by decide) (by decide) (by decide) (by decide)
  exact ⟨h.1, h.2.1, h.2.2.2.2.1, h.2.2.2.2.2.2⟩

/-- C8 (counterexample): the cursor bound invariant fails "regardless of the
contents of the checkpoint file": with a checkpoint file containing
`1392-12-29` — below the configured minimum — and the valid range
1393-01-01..1393-01-01 requested, the loop issues a fetch for 1392-12-29,
whose ordinal is strictly below `minStartingDate`; `load_resume_data`
performs no bounds check on the parsed checkpoint. -/
theorem c8_lower_bound_cex :
    Event.fetchReq 1392 12 29 ∈ (start fixedOracle ⟨some "1392-12-29", true, none⟩
        (some ⟨1393, 1, 1⟩) (some ⟨1393, 1, 1⟩)).state.events
    ∧ toOrd ⟨1392, 12, 29⟩ < toOrd minStartingDate := by
  decide

/-- C8 (amended): during iteration the cursor never exceeds
`max_ending_date` (the loop condition bounds it by the validated ending
date), regardless of the checkpoint file's contents; the lower bound
`min_starting_date ≤ cursor` holds only under the additional assumption
that the date stored in the checkpoint file is itself at least the
configured minimum — `load_resume_data` does not validate it. -/
theorem c8_cursor_bounds (oracle : JDate → ApiResponse) (w : Bool)
    (df : Option (List Row)) (ck : String) (d0 s e : JDate)
    (hparse : parseDate ck = some d0)
    (h1 : toOrd s ≤ toOrd e) (h2 : toOrd minStartingDate ≤ toOrd s)
    (h3 : toOrd e ≤ toOrd maxEndingDate) :
    (∀ y m dd, Event.fetchReq y m dd ∈ (start oracle ⟨some ck, w, df⟩
          (some s) (some e)).state.events →
        toOrd ⟨y, m, dd⟩ ≤ toOrd maxEndingDate)
    ∧ (toOrd minStartingDate ≤ toOrd d0 →
        ∀ y m dd, Event.fetchReq y m dd ∈ (start oracle ⟨some ck, w, df⟩
            (some s) (some e)).state.events →
          toOrd minStartingDate ≤ toOrd ⟨y, m, dd⟩) := by
  rw [start_run_ckpt oracle ⟨some ck, w, df⟩ s e d0 rfl hparse h1 h2 h3]
  have hframe := applyDays_frame oracle (dayList e d0)
    (postLoadCkpt ⟨some ck, w, df⟩ s e d0)
  have key : ∀ y m dd, Event.fetchReq y m dd
      ∈ (applyDays oracle (postLoadCkpt ⟨some ck, w, df⟩ s e d0) (dayList e d0)).events →
      toOrd d0 ≤ toOrd ⟨y, m, dd⟩ ∧ toOrd ⟨y, m, dd⟩ ≤ toOrd e := by
    intro y m dd hmem
    rw [hframe.2.2.2.2] at hmem
    rcases List.mem_append.mp hmem with hpre | hit
    · simp [postLoadCkpt] at hpre
    · obtain ⟨day, hday, hy, hm, hd⟩ := mem_iterTrace_fetchReq hit
      have hb := dayList_mem (toOrd e + 1 - toOrd d0) d0 le_rfl day hday
      have heq : (⟨y, m, dd⟩ : JDate) = day := by
        cases day
        simp_all
      rw [heq]
      exact ⟨hb.2.1, hb.2.2⟩
  constructor
  · intro y m dd hmem
    have hk := key y m dd hmem
    omega
  · intro hd0 y m dd hmem
    have hk := key y m dd hmem
    omega

theorem c8_cursor_bounds_witness :
    toOrd (⟨1393, 1, 2⟩ : JDate) ≤ toOrd maxEndingDate
    ∧ toOrd minStartingDate ≤ toOrd (⟨1393, 1, 2⟩ : JDate) := by
  have h := c8_cursor_bounds fixedOracle true none "1393-01-02"
    ⟨1393, 1, 2⟩ ⟨1393, 1, 2⟩ ⟨1393, 1, 2⟩ (by decide) (by decide) (by decide) (by decide)
  exact ⟨h.1 1393 1 2 (by decide), h.2 (by decide) 1393 1 2 (by decide)⟩

/-- C9: The HTTP client retries only on statuses 429, 500, 502, 503, 504 or
connection failures (any other error status propagates immediately, after a
single attempt and with no delay), performs at most `retryTimes` attempts
(default `retry-times = 3`), sleeps `backoff_factor * 2 ^ (attempt - 1)`
before each retry, and the `[503, 503, 200]` schedule with the default
attempt bound yields exactly one successful result after two delays
`b * 2 ^ 0` and `b * 2 ^ 1`. -/
theorem c9_retry_policy (b c0 : Nat) (body : ApiResponse)
    (hc : c0 ∉ retryableStatuses) :
    (∀ resp : Nat → HttpResp, resp 1 = .status c0 →
        fetchWithRetry retryTimesDefault b resp = ⟨.httpError c0, [], 1⟩)
    ∧ (∀ (resp : Nat → HttpResp) (budget attempt : Nat),
        (retryRun b resp budget attempt).attempts ≤ budget)
    ∧ fetchWithRetry retryTimesDefault b (responses503 body)
        = ⟨.success body, [b * 2 ^ 0, b * 2 ^ 1], 3⟩ := by
  refine ⟨?_, ?_, ?_⟩
  · intro resp h
    unfold fetchWithRetry retryTimesDefault
    unfold retryRun
    rw [h]
    simp [hc]
  · intro resp budget attempt
    exact retryRun_attempts_le b resp budget attempt
  · rfl

theorem c9_retry_policy_witness :
    fetchWithRetry retryTimesDefault 1 (fun _ => .status 404) = ⟨.httpError 404, [], 1⟩
    ∧ (retryRun 1 (responses503 sampleResponse) 3 1).attempts ≤ 3
    ∧ fetchWithRetry retryTimesDefault 1 (responses503 sampleResponse)
        = ⟨.success sampleResponse, [1 * 2 ^ 0, 1 * 2 ^ 1], 3⟩ := by
  have h := c9_retry_policy 1 404 sampleResponse (by decide)
  exact ⟨h.1 _ rfl, h.2.1 _ 3 1, h.2.2⟩

/-- C10 (counterexample): after a completed run over 1393-01-01..1393-01-02
the checkpoint does hold the last fetched day `1393-01-02` and the repeated
run does re-fetch that day first; but the repeated run does not append a
second row for that date to the dataset: because `load_data` discards the
on-disk dataset, the dataset file afterwards holds exactly one row, not the
first run's two rows plus a duplicate. -/
theorem c10_second_row_cex :
    (firstRun fixedOracle none ⟨1393, 1, 1⟩ ⟨1393, 1, 2⟩).state.fs.resumeFile
        = some "1393-01-02"
    ∧ ((firstRun fixedOracle none ⟨1393, 1, 1⟩ ⟨1393, 1, 2⟩).state.fs.dataFile.map
        List.length) = some 2
    ∧ firstFetch (secondRun fixedOracle none ⟨1393, 1, 1⟩ ⟨1393, 1, 2⟩).state.events
        = some (1393, 1, 2)
    ∧ ((secondRun fixedOracle none ⟨1393, 1, 1⟩ ⟨1393, 1, 2⟩).state.fs.dataFile.map
        List.length) = some 1
    ∧ (secondRun fixedOracle none ⟨1393, 1, 1⟩ ⟨1393, 1, 2⟩).state.fs.dataFile
        ≠ some ((firstRun fixedOracle none ⟨1393, 1, 1⟩ ⟨1393, 1, 2⟩).state.all_data
            ++ [makeRow sampleResponse ⟨1393, 1, 2⟩]) := by
  decide

/-- C10 (amended): after an error-free run over `[s, e]` the checkpoint file
contains the last fetched day `e` itself (not its successor: the cursor is
persisted before each fetch and the in-memory advance is never saved), and
an immediately repeated run re-fetches day `e` first — but, because
`load_data` resets the dataset, the repeated run ends with the dataset
holding exactly the single freshly fetched row for `e` rather than the
previous rows plus a second row for that date. -/
theorem c10_rerun_behavior (oracle : JDate → ApiResponse) (df : Option (List Row))
    (s e : JDate) (hvs : ValidDate s) (hve : ValidDate e)
    (h1 : toOrd s ≤ toOrd e) (h2 : toOrd minStartingDate ≤ toOrd s)
    (h3 : toOrd e ≤ toOrd maxEndingDate) :
    (firstRun oracle df s e).error = none
    ∧ (firstRun oracle df s e).state.fs.resumeFile = some (formatDate e)
    ∧ firstFetch (secondRun oracle df s e).state.events = some (e.year, e.month, e.day)
    ∧ (secondRun oracle df s e).state.all_data = [makeRow (oracle e) e]
    ∧ (secondRun oracle df s e).state.fs.dataFile = some [makeRow (oracle e) e] := by
  have hy : e.year < 10000 := by
    have := year_le_of_le_max hve h3
    omega
  have hparse := parseDate_formatDate hve hy
  have hne : dayList e s ≠ [] := by
    rw [dayList_cons hvs h1]
    simp
  have hrun1 : firstRun oracle df s e
      = ⟨applyDays oracle (postLoadFresh ⟨none, true, df⟩ s e) (dayList e s), none⟩ := by
    unfold firstRun
    exact start_run_fresh oracle ⟨none, true, df⟩ s e rfl hvs h1 h2 h3
  have hfiles1 := applyDays_files oracle (dayList e s) (postLoadFresh ⟨none, true, df⟩ s e) hne
  have hlast := dayList_lastDay hve (toOrd e + 1 - toOrd s) s le_rfl hvs h1
  have hrf1 : (firstRun oracle df s e).state.fs.resumeFile = some (formatDate e) := by
    rw [hrun1]
    show (applyDays oracle _ _).fs.resumeFile = _
    rw [hfiles1.2.1]
    simp [postLoadFresh, hlast]
  have hrun2 : secondRun oracle df s e
      = ⟨applyDays oracle (postLoadCkpt (firstRun oracle df s e).state.fs s e e)
          (dayList e e), none⟩ := by
    unfold secondRun
    exact start_run_ckpt oracle (firstRun oracle df s e).state.fs s e e hrf1 hparse h1 h2 h3
  have hne2 : dayList e e ≠ [] := by
    rw [dayList_self hve]
    simp
  have hframe2 := applyDays_frame oracle (dayList e e)
    (postLoadCkpt (firstRun oracle df s e).state.fs s e e)
  have hfiles2 := applyDays_files oracle (dayList e e)
    (postLoadCkpt (firstRun oracle df s e).state.fs s e e) hne2
  refine ⟨by rw [hrun1], hrf1, ?_, ?_, ?_⟩
  · rw [hrun2]
    show firstFetch (applyDays oracle _ _).events = _
    rw [hframe2.2.2.2.2, dayList_self hve]
    exact firstFetch_iterTrace _ e []
  · rw [hrun2]
    show (applyDays oracle _ _).all_data = _
    rw [hframe2.2.2.2.1, dayList_self hve]
    rfl
  · rw [hrun2]
    show (applyDays oracle _ _).fs.dataFile = _
    rw [hfiles2.1, dayList_self hve]
    rfl

theorem c10_rerun_behavior_witness :
    (firstRun fixedOracle none ⟨1393, 1, 1⟩ ⟨1393, 1, 2⟩).state.fs.resumeFile
        = some (formatDate ⟨1393, 1, 2⟩)
    ∧ (secondRun fixedOracle none ⟨1393, 1, 1⟩ ⟨1393, 1, 2⟩).state.all_data
        = [makeRow (fixedOracle ⟨1393, 1, 2⟩) ⟨1393, 1, 2⟩] := by
  have h := c10_rerun_behavior fixedOracle none ⟨1393, 1, 1⟩ ⟨1393, 1, 2⟩
    (by decide) (by decide) (by decide) (by decide) (by decide)
  exact ⟨h.2.1, h.2.2.2.1⟩

end TgjuCrawler

